import Mathlib

/-
  Verification of `measure_related_processes.py` against its design spec.

  Shallow embedding notes.
  * Python scalars that the sampler can place in a record (int, float, str) are
    modelled by `PyVal`; Python floats are modelled as rationals (no rounding
    behaviour is claimed anywhere in the spec).
  * A psutil process object (or any nested structured result such as the
    `cpu_times` named tuple) is a `Backing`: a printable form plus an
    association list from attribute name to `Attr`.  An attribute is either a
    plain data member or a callable whose invocation returns a value, raises
    `psutil.AccessDenied`, or raises some other exception (e.g.
    `psutil.NoSuchProcess` for a vanished process) identified by name.
  * `SafetyGoggles.__getattr__` (source lines 71-88) is `SGNode.getattr`:
    Python's `setattr(self, name, result)` memoisation is the cache list of the
    node; `getattr(self._backing, name, None)` followed by `if attr is not
    None` is `resolveAttr`.  The returned `Nat` counts queries made to the
    backing object (0 on a cache hit).
  * Attribute access on a plain int/float/str raises `AttributeError` in
    `SGRes.getattrStep`: the nested names the sampler reads (`system`, `user`,
    `rss`, `vms`, `shared`, `read_count`, `read_bytes`, `write_count`,
    `write_bytes`, `voluntary`, `involuntary`) are not attributes of Python
    scalar types, so this is exact for every name the program uses.
  * `MeasurementsWriter` (lines 91-151) keeps the csv stream as the list of
    already written lines (`rows`); `csv.writer.writerow` is modelled as
    appending the rendered cells.  ISO-8601 formatting of the timestamp is an
    external collaborator (`datetime`), modelled by the opaque-in-content but
    executable constructor `Cell.timeIso`.
  * The run loop of `main` (lines 154-176) is `runLoopAux`, driven by an
    environment giving, for each evaluation of the `while` condition, the
    results of `is_running()` / `status()` and of `children(recursive=True)`,
    and a clock giving the successive `time.time()` readings.  Fuel makes the
    possibly nonterminating `while` loop total; every claim is stated in a way
    that is insensitive to running out of fuel.
-/

namespace MRP

mutual

inductive PyVal where
  | int : Int → PyVal
  | float : ℚ → PyVal
  | str : String → PyVal
  | pynone : PyVal
  | obj : Backing → PyVal

inductive Attr where
  | plain : PyVal → Attr
  | call : CallResult → Attr

inductive CallResult where
  | ok : PyVal → CallResult
  | accessDenied : CallResult
  | raises : String → CallResult

inductive Backing where
  | mk : String → List (String × Attr) → Backing

end

def Backing.strForm : Backing → String
  | .mk s _ => s

def Backing.attrsOf : Backing → List (String × Attr)
  | .mk _ attrs => attrs

/-- Exceptions that the embedded fragments can propagate. -/
inductive PyErr where
  | attributeError : PyErr
  | typeError : PyErr
  | uncaught : String → PyErr
deriving DecidableEq

mutual

inductive SGRes where
  | int : Int → SGRes
  | float : ℚ → SGRes
  | str : String → SGRes
  | node : SGNode → SGRes

inductive SGNode where
  | mk : Option Backing → List (String × SGRes) → SGNode

end

def SGNode.backingOf : SGNode → Option Backing
  | .mk b _ => b

def SGNode.cacheOf : SGNode → List (String × SGRes)
  | .mk _ c => c

/-- The `isinstance(details, (int, float, str))` test and the wrapping of any
other resolved value in a fresh `SafetyGoggles(details)` (lines 82-85). -/
def wrapDetails : PyVal → SGRes
  | .int n => .int n
  | .float q => .float q
  | .str s => .str s
  | .pynone => .node (.mk none [])
  | .obj b => .node (.mk (some b) [])

/-- `getattr(backing, name, None)` seen from outside: `none` both when the
attribute is missing and when it is a plain data member holding `None`. -/
def lookupAttr : Option Backing → String → Option Attr
  | none, _ => none
  | some b, name => (b.attrsOf).lookup name

/-- The body of `SafetyGoggles.__getattr__` on a cache miss (lines 72-85):
compute `details` from the backing and wrap it.  Only `psutil.AccessDenied`
is caught; any other exception raised by invoking the attribute propagates. -/
def resolveAttr (ob : Option Backing) (name : String) : Except PyErr SGRes :=
  match ob with
  | none => .ok (wrapDetails .pynone)
  | some b =>
    match (b.attrsOf).lookup name with
    | none => .ok (wrapDetails .pynone)
    | some (.plain v) =>
      match v with
      | .pynone => .ok (wrapDetails .pynone)
      | v => .ok (wrapDetails v)
    | some (.call cr) =>
      match cr with
      | .ok v => .ok (wrapDetails v)
      | .accessDenied => .ok (wrapDetails (.str "Transient Error"))
      | .raises e => .error (.uncaught e)

/-- Number of queries made to the backing object on a cache miss. -/
def queryCost : Option Backing → Nat
  | none => 0
  | some _ => 1

/-- `SafetyGoggles.__getattr__` with the `setattr` memoisation: Python only
calls `__getattr__` when the name is not already an instance attribute, so a
cached name is answered from the cache with no backing query. -/
def SGNode.getattr : SGNode → String → Except PyErr (SGRes × SGNode × Nat)
  | .mk backing cache, name =>
    match cache.lookup name with
    | some r => .ok (r, .mk backing cache, 0)
    | none =>
      match resolveAttr backing name with
      | .error e => .error e
      | .ok r => .ok (r, .mk backing ((name, r) :: cache), queryCost backing)

/-- Attribute access on an arbitrary resolved value, as used by the dotted
reads such as `p.cpu_times.system`: going through a wrapper node uses
`__getattr__`; on a plain scalar the (non-scalar-attribute) name is absent
and Python raises `AttributeError`. -/
def SGRes.getattrStep : SGRes → String → Except PyErr (SGRes × SGRes)
  | .node n, name =>
    match n.getattr name with
    | .error e => .error e
    | .ok (r, n2, _) => .ok (r, .node n2)
  | .int _, _ => .error .attributeError
  | .float _, _ => .error .attributeError
  | .str _, _ => .error .attributeError

/-- In-place mutation of a nested wrapper seen through the parent cache: the
Python objects are aliased, so updating the child updates the entry stored in
the parent.  `setCache` rebinds a name in the cache. -/
def SGNode.setCache : SGNode → String → SGRes → SGNode
  | .mk b cache, name, r =>
    .mk b (cache.map fun kv => if kv.1 = name then (kv.1, r) else kv)

/-- Erase the (memoisation-only) cache of a wrapped value; used to state that
memoisation never changes what a resolution means. -/
def SGRes.strip : SGRes → SGRes
  | .node (.mk b _) => .node (.mk b [])
  | r => r

/-- A value stored in one cell of a record, exactly what the program passes to
`writefield`. -/
inductive Cell where
  | int : Int → Cell
  | rat : ℚ → Cell
  | str : String → Cell
  | node : Option Backing → Cell
  | timeIso : ℚ → Cell

def ratStr (q : ℚ) : String := toString q.num ++ "/" ++ toString q.den

/-- What `csv.writer` puts in the file for one cell: `str(value)`.
`str(SafetyGoggles(None))` is "N/A" (line 69). -/
def Cell.render : Cell → String
  | .int n => toString n
  | .rat q => ratStr q
  | .str s => s
  | .node none => "N/A"
  | .node (some b) => b.strForm
  | .timeIso t => "iso:" ++ ratStr t

def cellOfRes : SGRes → Cell
  | .int n => .int n
  | .float q => .rat q
  | .str s => .str s
  | .node n => .node n.backingOf

/-- How one field of the record is produced (lines 105-138). -/
inductive FieldSrc where
  | tsIso : FieldSrc
  | attr1 : String → FieldSrc
  | attr2 : String → String → FieldSrc
  | elapsed : FieldSrc
  | cycleNum : FieldSrc
deriving DecidableEq

/-- The fixed sequence of `writefield` calls in `writeprocess`. -/
def fieldList : List (String × FieldSrc) :=
  [("Timestamp", .tsIso),
   ("PID", .attr1 "pid"),
   ("PPID", .attr1 "ppid"),
   ("Image", .attr1 "name"),
   ("Elapsed", .elapsed),
   ("System time", .attr2 "cpu_times" "system"),
   ("User time", .attr2 "cpu_times" "user"),
   ("Threads", .attr1 "num_threads"),
   ("Active memory", .attr2 "memory_info" "rss"),
   ("Virtual memory", .attr2 "memory_info" "vms"),
   ("Read operations", .attr2 "io_counters" "read_count"),
   ("Read bytes", .attr2 "io_counters" "read_bytes"),
   ("Write operations", .attr2 "io_counters" "write_count"),
   ("Write bytes", .attr2 "io_counters" "write_bytes"),
   ("Cycle", .cycleNum),
   ("State", .attr1 "status"),
   ("File descriptors", .attr1 "num_fds"),
   ("Shared memory", .attr2 "memory_info" "shared"),
   ("Voluntary context switches", .attr2 "num_ctx_switches" "voluntary"),
   ("Involuntary context switches", .attr2 "num_ctx_switches" "involuntary"),
   ("Current working directory", .attr1 "cwd")]

def headerLabels : List String := fieldList.map Prod.fst

/-- Evaluate the value expression of one `writefield` call against the wrapper
node `p = SafetyGoggles(process)`, threading the node's memoisation state.
`elapsed` is `timestamp - p.create_time` (line 116): Python subtraction of a
non-numeric right operand (a string, or a wrapper node, whose type defines no
reflected arithmetic) raises `TypeError`. -/
def evalField (cyc : Nat) (ts : ℚ) (src : FieldSrc) (p : SGNode) :
    Except PyErr (Cell × SGNode) :=
  match src with
  | .tsIso => .ok (.timeIso ts, p)
  | .cycleNum => .ok (.int (Int.ofNat cyc), p)
  | .attr1 a =>
    match p.getattr a with
    | .error e => .error e
    | .ok (r, p2, _) => .ok (cellOfRes r, p2)
  | .attr2 a x =>
    match p.getattr a with
    | .error e => .error e
    | .ok (r, p2, _) =>
      match r.getattrStep x with
      | .error e => .error e
      | .ok (r2, rUpd) => .ok (cellOfRes r2, p2.setCache a rUpd)
  | .elapsed =>
    match p.getattr "create_time" with
    | .error e => .error e
    | .ok (r, p2, _) =>
      match r with
      | .int i => .ok (.rat (ts - (i : ℚ)), p2)
      | .float q => .ok (.rat (ts - q), p2)
      | .str _ => .error .typeError
      | .node _ => .error .typeError

/-- Run the field reads in order; on an exception the fields already produced
have been handed to `writefield` and the exception propagates (second
component). -/
def fieldsGo (cyc : Nat) (ts : ℚ) :
    List (String × FieldSrc) → SGNode → List (String × Cell) →
    List (String × Cell) × Option PyErr
  | [], _, acc => (acc.reverse, none)
  | ls :: rest, p, acc =>
    match evalField cyc ts ls.2 p with
    | .error e => (acc.reverse, some e)
    | .ok (c, p2) => fieldsGo cyc ts rest p2 ((ls.1, c) :: acc)

/-- All the field computations of `writeprocess` for one process, from a fresh
`SafetyGoggles(process)` wrapper. -/
def computeFields (cyc : Nat) (ts : ℚ) (b : Backing) :
    List (String × Cell) × Option PyErr :=
  fieldsGo cyc ts fieldList (.mk (some b) []) []

/-- The value `create_time` resolves to on the raw backing, when numeric. -/
def resolveCreateTimeQ (ob : Option Backing) : Option ℚ :=
  match resolveAttr ob "create_time" with
  | .ok (.int i) => some (i : ℚ)
  | .ok (.float q) => some q
  | _ => none

structure MeasurementsWriter where
  started : Bool
  header : List String
  record : List Cell
  rows : List (List String)

def MeasurementsWriter.init : MeasurementsWriter := ⟨false, [], [], []⟩

/-- `writefield` (lines 141-144): the label is appended to the header only
while the csv writer has not been created yet. -/
def MeasurementsWriter.writefield (w : MeasurementsWriter) (label : String)
    (value : Cell) : MeasurementsWriter :=
  { w with
    header := if w.started then w.header else w.header ++ [label]
    record := w.record ++ [value] }

/-- `writerecord` (lines 146-151): on the first commit create the csv writer
and emit the header line, then emit the rendered record and reset it. -/
def MeasurementsWriter.writerecord (w : MeasurementsWriter) : MeasurementsWriter :=
  let w1 := if w.started then w
            else { w with started := true, rows := w.rows ++ [w.header] }
  { w1 with rows := w1.rows ++ [w1.record.map Cell.render], record := [] }

inductive WPResult where
  | committed : MeasurementsWriter → List (String × Cell) → WPResult
  | failed : MeasurementsWriter → PyErr → WPResult

/-- `writeprocess` (lines 98-139).  The fields computed before an exception
have already been appended by `writefield`; the record is committed only when
every field read finished. -/
def MeasurementsWriter.writeprocess (w : MeasurementsWriter) (cyc : Nat)
    (ts : ℚ) (b : Backing) : WPResult :=
  match computeFields cyc ts b with
  | (fs, none) =>
    .committed ((fs.foldl (fun w lc => w.writefield lc.1 lc.2) w).writerecord) fs
  | (fs, some e) =>
    .failed (fs.foldl (fun w lc => w.writefield lc.1 lc.2) w) e

structure Proc where
  pid : Int
  backing : Backing

/-- `sorted([first, *children], key=lambda _: _.pid)` — Python's sort is
stable, as is insertion sort. -/
def sortByPid (ps : List Proc) : List Proc :=
  ps.insertionSort (fun a b => a.pid ≤ b.pid)

/-- Observable events of one run, in order. -/
inductive Ev where
  | check : Bool → Ev
  | startPass : Nat → Ev
  | recEv : Nat → Int → Ev
  | slept : Ev
  | abortedEv : PyErr → Ev
  | waited : Ev
deriving DecidableEq

/-- What the provider answers at one evaluation of the `while` condition:
`is_running()`, `status() == psutil.STATUS_ZOMBIE`, and the result of the
subsequent `children(recursive=True)` enumeration. -/
structure CycleObs where
  isRunning : Bool
  isZombie : Bool
  children : List Proc

structure RunEnv where
  root : Proc
  obs : Nat → CycleObs
  clock : Nat → ℚ

/-- The parsed `-s` option.  `argparse` stores the default `0.1` as a float
but a user-supplied value as the raw string (no `type=` conversion at lines
30-35). -/
inductive SecondsVal where
  | float : ℚ → SecondsVal
  | str : String → SecondsVal
deriving DecidableEq

def parseSecondsOption : Option String → SecondsVal
  | none => .float (1 / 10)
  | some s => .str s

/-- `time.sleep(x)`: a string argument raises `TypeError`. -/
def timeSleep : SecondsVal → Except PyErr Unit
  | .float _ => .ok ()
  | .str _ => .error .typeError

structure PassOut where
  writer : MeasurementsWriter
  nextIdx : Nat
  trace : List Ev
  recs : List (Nat × List (String × Cell))
  err : Option PyErr

/-- The `for process in sorted(...)` body: `writer.writeprocess(cycle,
process)` for each process in order; an exception aborts the pass (and, with
no handler in `main`, the whole run). -/
def runPass (cyc : Nat) (clock : Nat → ℚ) :
    List Proc → MeasurementsWriter → Nat → PassOut
  | [], w, k => ⟨w, k, [], [], none⟩
  | p :: ps, w, k =>
    match w.writeprocess cyc (clock k) p.backing with
    | .failed w2 e => ⟨w2, k + 1, [.abortedEv e], [], some e⟩
    | .committed w2 fs =>
      let rest := runPass cyc clock ps w2 (k + 1)
      ⟨rest.writer, rest.nextIdx, .recEv cyc p.pid :: rest.trace,
        (cyc, fs) :: rest.recs, rest.err⟩

/-- One full sampling pass as `main` performs it at condition-check `i` with
current cycle counter `cyc`: increment the counter, enumerate
`children(recursive=True)`, sort the root and children by pid, sample each. -/
def passAt (env : RunEnv) (w : MeasurementsWriter) (i cyc k : Nat) : PassOut :=
  runPass (cyc + 1) env.clock (sortByPid (env.root :: (env.obs i).children)) w k

structure RunOut where
  trace : List Ev
  recs : List (Nat × List (String × Cell))
  writer : MeasurementsWriter
  aborted : Option PyErr
  waitedFlag : Bool

/-- The `while` loop of `main` (lines 170-176): check the condition; if it
holds, increment the cycle counter, enumerate and sort the tree, sample every
process, sleep; once the condition fails, `first.wait()`.  Fuel bounds the
number of loop iterations modelled. -/
def runLoopAux (env : RunEnv) (sv : SecondsVal) :
    Nat → Nat → Nat → Nat → MeasurementsWriter → RunOut
  | 0, _, _, _, w => ⟨[], [], w, none, false⟩
  | fuel + 1, i, cyc, k, w =>
    match (env.obs i).isRunning && !(env.obs i).isZombie with
    | true =>
      let po := passAt env w i cyc k
      match po.err with
      | some e =>
        ⟨.check true :: .startPass (cyc + 1) :: po.trace, po.recs, po.writer,
          some e, false⟩
      | none =>
        match timeSleep sv with
        | .error e =>
          ⟨.check true :: .startPass (cyc + 1) :: (po.trace ++ [.abortedEv e]),
            po.recs, po.writer, some e, false⟩
        | .ok _ =>
          let rest := runLoopAux env sv fuel (i + 1) (cyc + 1) po.nextIdx po.writer
          ⟨.check true :: .startPass (cyc + 1) :: (po.trace ++ .slept :: rest.trace),
            po.recs ++ rest.recs, rest.writer, rest.aborted, rest.waitedFlag⟩
    | false => ⟨[.check false, .waited], [], w, none, true⟩


/-- `main` after the command has been launched: `cycle = 0` (line 158), then
the sampling loop over the freshly opened writer. -/
def runMain (env : RunEnv) (sv : SecondsVal) (fuel : Nat) : RunOut :=
  runLoopAux env sv fuel 0 0 0 .init

def startPassCycles (t : List Ev) : List Nat :=
  t.filterMap fun e => match e with | .startPass c => some c | _ => none

/-- Consecutive integers starting at `s`. -/
def cycleSeq : Nat → Nat → List Nat
  | _, 0 => []
  | s, n + 1 => s :: cycleSeq (s + 1) n

/-- The temporal structure of one `writeprocess` call: acquire the `oneshot`
scope (lines 99-102), capture `time.time()` once (line 103), then perform the
field reads in their fixed order inside the scope. -/
inductive SampleEv where
  | acquireScope : SampleEv
  | capture : SampleEv
  | fieldRead : String → SampleEv
deriving DecidableEq

def sampleEvents : List SampleEv :=
  .acquireScope :: .capture :: fieldList.map (fun ls => .fieldRead ls.1)

def isCapture : SampleEv → Bool
  | .capture => true
  | _ => false

def isFieldRead : SampleEv → Bool
  | .fieldRead _ => true
  | _ => false

def isStartPassEv : Ev → Bool
  | .startPass _ => true
  | _ => false

def isCheckTrueEv : Ev → Bool
  | .check true => true
  | _ => false

/-- Events that a single sampling pass can emit. -/
def isPassEv : Ev → Bool
  | .recEv _ _ => true
  | .abortedEv _ => true
  | _ => false

/- Concrete instances used by witnesses and counterexamples. -/

/-- A minimal healthy process backing: `create_time` is numeric (so `Elapsed`
is computable); every other attribute is missing and degrades to the "N/A"
wrapper. -/
def bGood : Backing := .mk "proc" [("create_time", .plain (.float 0))]

/-- A backing on which reading `cpu_times` raises `psutil.AccessDenied`. -/
def bC1 : Backing :=
  .mk "proc" [("create_time", .plain (.float 0)), ("cpu_times", .call .accessDenied)]

/-- A backing on which `cwd()` raises `psutil.AccessDenied`. -/
def bDenied : Backing := .mk "proc" [("cwd", .call .accessDenied)]

/-- A process that vanished between enumeration and sampling: `pid` is the
cached plain attribute, every method raises `psutil.NoSuchProcess`. -/
def bGone : Backing :=
  .mk "gone" [("pid", .plain (.int 2)), ("ppid", .call (.raises "NoSuchProcess"))]

def procRoot : Proc := ⟨1, bGood⟩
def child2 : Proc := ⟨2, bGood⟩
def procGone : Proc := ⟨2, bGone⟩
def procThree : Proc := ⟨3, bGood⟩

def obsStop : CycleObs := ⟨false, false, []⟩

/-- Root alone, alive for exactly one condition check. -/
def envOnce : RunEnv :=
  ⟨procRoot, fun i => if i = 0 then ⟨true, false, []⟩ else obsStop, fun _ => 5⟩

/-- Root with one live child during the first pass. -/
def envC2 : RunEnv :=
  ⟨procRoot, fun i => if i = 0 then ⟨true, false, [child2]⟩ else obsStop, fun _ => 5⟩

/-- Root with one live child (pid 3) and one child that vanished after
enumeration (pid 2). -/
def envC3 : RunEnv :=
  ⟨procRoot, fun i => if i = 0 then ⟨true, false, [procThree, procGone]⟩ else obsStop,
    fun _ => 5⟩

/-- Attribute present with plain value `None`. -/
def bPlainNone : Backing := .mk "p2" [("num_fds", .plain .pynone)]

/-- Attribute whose invocation returns `None`. -/
def bCallNone : Backing := .mk "p3" [("num_fds", .call (.ok .pynone))]

/-- The record produced for a healthy minimal process at cycle 1, time 5. -/
def fs0 : List (String × Cell) := (computeFields 1 5 bGood).1

/- Specification predicates used by the proofs. -/

/-- A cache entry never changes what a fresh resolution against the backing
would mean: memoisation is semantically invisible (up to nested caches). -/
def CacheEntryOK (b : Option Backing) (kv : String × SGRes) : Prop :=
  ∃ r0, resolveAttr b kv.1 = .ok r0 ∧ kv.2.strip = r0.strip

def CacheGood : SGNode → Prop
  | .mk b cache => ∀ kv ∈ cache, CacheEntryOK b kv

/-- What the cell produced for a field source must look like (only the parts
needed by the claims are constrained). -/
def CellSpec (ob : Option Backing) (cyc : Nat) (ts : ℚ) :
    FieldSrc → Cell → Prop
  | .tsIso, c => c = .timeIso ts
  | .cycleNum, c => c = .int (Int.ofNat cyc)
  | .elapsed, c => ∃ v, resolveCreateTimeQ ob = some v ∧ c = .rat (ts - v)
  | .attr1 _, _ => True
  | .attr2 _ _, _ => True

def FieldRel (ob : Option Backing) (cyc : Nat) (ts : ℚ)
    (ls : String × FieldSrc) (tc : String × Cell) : Prop :=
  tc.1 = ls.1 ∧ CellSpec ob cyc ts ls.2 tc.2

/-- Invariant of the writer between `writeprocess` calls, after `n` committed
records. -/
def WriterShape (w : MeasurementsWriter) (n : Nat) : Prop :=
  w.record = [] ∧
  ((w.started = false ∧ w.header = [] ∧ w.rows = [] ∧ n = 0) ∨
   (w.started = true ∧ w.header = headerLabels ∧
     ∃ data, w.rows = headerLabels :: data ∧ data.length = n ∧
       ∀ r ∈ data, r.length = headerLabels.length))

/-- Shape of the emitted csv lines after `n` committed records, stable even
past an aborting `writeprocess` (which never commits). -/
def RowsOK (w : MeasurementsWriter) (n : Nat) : Prop :=
  (n = 0 ∧ w.rows = []) ∨
  (∃ data, w.rows = headerLabels :: data ∧ data.length = n ∧
    ∀ r ∈ data, r.length = headerLabels.length)

/- Helper lemmas. -/

theorem lookup_mem {β : Type} {name : String} {cache : List (String × β)} {r : β}
    (h : cache.lookup name = some r) : (name, r) ∈ cache := by
  induction cache with
  | nil => simp at h
  | cons kv rest ih =>
    obtain ⟨k, v⟩ := kv
    rw [List.lookup_cons] at h
    cases hk : (name == k) with
    | true =>
      rw [hk] at h
      cases h
      have : name = k := by simpa using hk
      subst this
      exact List.mem_cons_self _ _
    | false =>
      rw [hk] at h
      exact List.mem_cons_of_mem _ (ih h)

theorem getattr_backing {n : SGNode} {name : String} {r : SGRes} {n2 : SGNode}
    {q : Nat} (h : n.getattr name = .ok (r, n2, q)) :
    n2.backingOf = n.backingOf := by
  obtain ⟨b, cache⟩ := n
  rw [SGNode.getattr] at h
  cases hc : cache.lookup name with
  | some r1 =>
    simp only [hc, Except.ok.injEq, Prod.mk.injEq] at h
    obtain ⟨-, h2, -⟩ := h
    rw [← h2]
  | none =>
    simp only [hc] at h
    cases hr : resolveAttr b name with
    | error e => simp only [hr] at h; exact Except.noConfusion h
    | ok r0 =>
      simp only [hr, Except.ok.injEq, Prod.mk.injEq] at h
      obtain ⟨-, h2, -⟩ := h
      rw [← h2]
      rfl

theorem getattr_spec {n : SGNode} {name : String} {r : SGRes} {n2 : SGNode}
    {q : Nat} (hg : CacheGood n) (h : n.getattr name = .ok (r, n2, q)) :
    (∃ r0, resolveAttr n.backingOf name = .ok r0 ∧ r.strip = r0.strip) ∧
      CacheGood n2 ∧ n2.backingOf = n.backingOf := by
  obtain ⟨b, cache⟩ := n
  rw [SGNode.getattr] at h
  cases hc : cache.lookup name with
  | some r1 =>
    simp only [hc, Except.ok.injEq, Prod.mk.injEq] at h
    obtain ⟨h1, h2, -⟩ := h
    subst h1
    rw [← h2]
    exact ⟨hg _ (lookup_mem hc), hg, rfl⟩
  | none =>
    simp only [hc] at h
    cases hr : resolveAttr b name with
    | error e => simp only [hr] at h; exact Except.noConfusion h
    | ok r0 =>
      simp only [hr, Except.ok.injEq, Prod.mk.injEq] at h
      obtain ⟨h1, h2, -⟩ := h
      subst h1
      rw [← h2]
      refine ⟨⟨r0, hr, rfl⟩, ?_, rfl⟩
      intro kv hkv
      rcases List.mem_cons.mp hkv with hkv | hkv
      · subst hkv; exact ⟨r0, hr, rfl⟩
      · exact hg _ hkv

theorem getattrStep_strip {r : SGRes} {x : String} {r2 rUpd : SGRes}
    (h : r.getattrStep x = .ok (r2, rUpd)) : rUpd.strip = r.strip := by
  cases r with
  | node n =>
    rw [SGRes.getattrStep] at h
    cases hg : n.getattr x with
    | error e => simp only [hg] at h; exact Except.noConfusion h
    | ok out =>
      obtain ⟨r1, n2, q⟩ := out
      simp only [hg, Except.ok.injEq, Prod.mk.injEq] at h
      obtain ⟨-, h2⟩ := h
      rw [← h2]
      have hb := getattr_backing hg
      obtain ⟨b, cache⟩ := n
      obtain ⟨b2, cache2⟩ := n2
      rw [SGNode.backingOf, SGNode.backingOf] at hb
      subst hb
      rfl
  | int i => exact Except.noConfusion h
  | float q => exact Except.noConfusion h
  | str s => exact Except.noConfusion h

theorem setCache_backing (n : SGNode) (name : String) (r : SGRes) :
    (n.setCache name r).backingOf = n.backingOf := by
  obtain ⟨b, cache⟩ := n; rfl

theorem setCache_good {b : Option Backing} {cache : List (String × SGRes)}
    {name : String} {rNew : SGRes}
    (hg : CacheGood (.mk b cache))
    (hev : ∃ r0, resolveAttr b name = .ok r0 ∧ rNew.strip = r0.strip) :
    CacheGood ((SGNode.mk b cache).setCache name rNew) := by
  rw [SGNode.setCache]
  intro kv hkv
  rcases List.mem_map.mp hkv with ⟨kv0, hkv0, hmap⟩
  by_cases hk : kv0.1 = name
  · rw [if_pos hk] at hmap
    subst hmap
    obtain ⟨r0, hr0, hs⟩ := hev
    exact ⟨r0, by rw [hk]; exact hr0, hs⟩
  · rw [if_neg hk] at hmap
    subst hmap
    exact hg _ hkv0

theorem strip_eq_int {r : SGRes} {i : Int} (h : r.strip = .int i) : r = .int i := by
  cases r with
  | int j => exact h
  | float q => exact SGRes.noConfusion h
  | str s => exact SGRes.noConfusion h
  | node n => obtain ⟨b, c⟩ := n; exact SGRes.noConfusion h

theorem strip_eq_float {r : SGRes} {q : ℚ} (h : r.strip = .float q) : r = .float q := by
  cases r with
  | int j => exact SGRes.noConfusion h
  | float q2 => exact h
  | str s => exact SGRes.noConfusion h
  | node n => obtain ⟨b, c⟩ := n; exact SGRes.noConfusion h

theorem evalField_spec {cyc : Nat} {ts : ℚ} {src : FieldSrc} {p : SGNode}
    {c : Cell} {p2 : SGNode} (hg : CacheGood p)
    (h : evalField cyc ts src p = .ok (c, p2)) :
    CacheGood p2 ∧ p2.backingOf = p.backingOf ∧
      CellSpec p.backingOf cyc ts src c := by
  cases src with
  | tsIso =>
    rw [evalField] at h
    simp only [Except.ok.injEq, Prod.mk.injEq] at h
    obtain ⟨h1, h2⟩ := h
    rw [← h1, ← h2]
    exact ⟨hg, rfl, rfl⟩
  | cycleNum =>
    rw [evalField] at h
    simp only [Except.ok.injEq, Prod.mk.injEq] at h
    obtain ⟨h1, h2⟩ := h
    rw [← h1, ← h2]
    exact ⟨hg, rfl, rfl⟩
  | attr1 a =>
    rw [evalField] at h
    cases hga : p.getattr a with
    | error e => simp only [hga] at h; exact Except.noConfusion h
    | ok out =>
      obtain ⟨r, p1, q⟩ := out
      simp only [hga, Except.ok.injEq, Prod.mk.injEq] at h
      obtain ⟨-, h2⟩ := h
      rw [← h2]
      obtain ⟨-, hgood, hback⟩ := getattr_spec hg hga
      exact ⟨hgood, hback, trivial⟩
  | attr2 a x =>
    rw [evalField] at h
    cases hga : p.getattr a with
    | error e => simp only [hga] at h; exact Except.noConfusion h
    | ok out =>
      obtain ⟨r, p1, q⟩ := out
      simp only [hga] at h
      cases hgs : r.getattrStep x with
      | error e => simp only [hgs] at h; exact Except.noConfusion h
      | ok out2 =>
        obtain ⟨r2, rUpd⟩ := out2
        simp only [hgs, Except.ok.injEq, Prod.mk.injEq] at h
        obtain ⟨-, h2⟩ := h
        rw [← h2]
        obtain ⟨⟨r0, hr0, hstrip⟩, hgood1, hback1⟩ := getattr_spec hg hga
        have hstrip2 : rUpd.strip = r0.strip := by
          rw [getattrStep_strip hgs, hstrip]
        refine ⟨?_, ?_, trivial⟩
        · obtain ⟨b1, cache1⟩ := p1
          refine setCache_good hgood1 ⟨r0, ?_, hstrip2⟩
          rw [SGNode.backingOf] at hback1
          rw [hback1]
          exact hr0
        · rw [setCache_backing, hback1]
  | elapsed =>
    rw [evalField] at h
    cases hga : p.getattr "create_time" with
    | error e => simp only [hga] at h; exact Except.noConfusion h
    | ok out =>
      obtain ⟨r, p1, q⟩ := out
      simp only [hga] at h
      obtain ⟨⟨r0, hr0, hstrip⟩, hgood1, hback1⟩ := getattr_spec hg hga
      cases r with
      | int i =>
        simp only [Except.ok.injEq, Prod.mk.injEq] at h
        obtain ⟨h1, h2⟩ := h
        rw [← h1, ← h2]
        refine ⟨hgood1, hback1, ⟨(i : ℚ), ?_, rfl⟩⟩
        have hr0i : r0 = .int i := by
          have : (SGRes.int i).strip = r0.strip := hstrip
          exact (strip_eq_int this.symm).symm ▸ rfl
        rw [resolveCreateTimeQ, hr0, hr0i]
      | float qq =>
        simp only [Except.ok.injEq, Prod.mk.injEq] at h
        obtain ⟨h1, h2⟩ := h
        rw [← h1, ← h2]
        refine ⟨hgood1, hback1, ⟨qq, ?_, rfl⟩⟩
        have hr0q : r0 = .float qq := by
          have : (SGRes.float qq).strip = r0.strip := hstrip
          exact (strip_eq_float this.symm).symm ▸ rfl
        rw [resolveCreateTimeQ, hr0, hr0q]
      | str s => exact Except.noConfusion h
      | node nn => exact Except.noConfusion h

theorem fieldsGo_success {cyc : Nat} {ts : ℚ} {ob : Option Backing} :
    ∀ (l : List (String × FieldSrc)) (p : SGNode) (acc fs : List (String × Cell)),
      CacheGood p → p.backingOf = ob →
      fieldsGo cyc ts l p acc = (fs, none) →
      ∃ tail, fs = acc.reverse ++ tail ∧
        List.Forall₂ (FieldRel ob cyc ts) l tail := by
  intro l
  induction l with
  | nil =>
    intro p acc fs _ _ h
    rw [fieldsGo] at h
    simp only [Prod.mk.injEq] at h
    exact ⟨[], by rw [← h.1]; simp, List.Forall₂.nil⟩
  | cons ls rest ih =>
    intro p acc fs hg hb h
    rw [fieldsGo] at h
    cases he : evalField cyc ts ls.2 p with
    | error e =>
      simp only [he, Prod.mk.injEq] at h
      exact absurd h.2 (by simp)
    | ok out =>
      obtain ⟨c, p2⟩ := out
      simp only [he] at h
      obtain ⟨hgood2, hback2, hcell⟩ := evalField_spec hg he
      obtain ⟨tail, htail, hrel⟩ :=
        ih p2 ((ls.1, c) :: acc) fs hgood2 (by rw [hback2, hb]) h
      refine ⟨(ls.1, c) :: tail, ?_, ?_⟩
      · rw [htail]; simp
      · exact List.Forall₂.cons ⟨rfl, hb ▸ hcell⟩ hrel

theorem forall2_lookup {ob : Option Backing} {cyc : Nat} {ts : ℚ} :
    ∀ {l : List (String × FieldSrc)} {tail : List (String × Cell)},
      List.Forall₂ (FieldRel ob cyc ts) l tail →
      (l.map Prod.fst).Nodup →
      ∀ lab src, (lab, src) ∈ l →
        ∃ cell, tail.lookup lab = some cell ∧ CellSpec ob cyc ts src cell := by
  intro l tail hf
  induction hf with
  | nil => intro _ lab src h; simp at h
  | @cons a b l1 l2 hab htl ih =>
    intro hnodup lab src hmem
    obtain ⟨ak, asrc⟩ := a
    obtain ⟨bk, bc⟩ := b
    have hfst : bk = ak := hab.1
    have hnodup2 : (ak :: l1.map Prod.fst).Nodup := by
      simpa only [List.map_cons] using hnodup
    have hnd := List.nodup_cons.mp hnodup2
    rcases List.mem_cons.mp hmem with heq | hmem2
    · have hak : ak = lab := by cases heq; rfl
      have hsrc : asrc = src := by cases heq; rfl
      refine ⟨bc, ?_, hsrc ▸ hab.2⟩
      rw [List.lookup_cons]
      have : (lab == bk) = true := by rw [hfst, hak]; simp
      rw [this]
    · have hlab : lab ∈ l1.map Prod.fst := by
        exact List.mem_map.mpr ⟨(lab, src), hmem2, rfl⟩
      have hne : lab ≠ ak := fun hcontra => hnd.1 (hcontra ▸ hlab)
      rw [List.lookup_cons]
      have : (lab == bk) = false := by
        rw [hfst]
        exact beq_false_of_ne hne
      rw [this]
      exact ih hnd.2 lab src hmem2

theorem forall2_map_fst {ob : Option Backing} {cyc : Nat} {ts : ℚ} :
    ∀ {l : List (String × FieldSrc)} {tail : List (String × Cell)},
      List.Forall₂ (FieldRel ob cyc ts) l tail →
      tail.map Prod.fst = l.map Prod.fst := by
  intro l tail hf
  induction hf with
  | nil => rfl
  | cons hab htl ih => simp [ih, hab.1]

theorem computeFields_success {cyc : Nat} {ts : ℚ} {b : Backing}
    {fs : List (String × Cell)} (h : computeFields cyc ts b = (fs, none)) :
    List.Forall₂ (FieldRel (some b) cyc ts) fieldList fs := by
  have hg : CacheGood (SGNode.mk (some b) []) := by
    intro kv hkv; simp at hkv
  obtain ⟨tail, htail, hrel⟩ :=
    fieldsGo_success fieldList (.mk (some b) []) [] fs hg rfl h
  simpa [htail] using hrel

theorem computeFields_labels {cyc : Nat} {ts : ℚ} {b : Backing}
    {fs : List (String × Cell)} (h : computeFields cyc ts b = (fs, none)) :
    fs.map Prod.fst = headerLabels :=
  forall2_map_fst (computeFields_success h)

theorem computeFields_length {cyc : Nat} {ts : ℚ} {b : Backing}
    {fs : List (String × Cell)} (h : computeFields cyc ts b = (fs, none)) :
    fs.length = headerLabels.length := by
  have := (computeFields_success h).length_eq
  simpa [headerLabels] using this.symm

theorem fieldList_labels_nodup : (fieldList.map Prod.fst).Nodup := by decide

theorem computeFields_lookup_cycle {cyc : Nat} {ts : ℚ} {b : Backing}
    {fs : List (String × Cell)} (h : computeFields cyc ts b = (fs, none)) :
    fs.lookup "Cycle" = some (.int (Int.ofNat cyc)) := by
  obtain ⟨cell, hlk, hspec⟩ :=
    forall2_lookup (computeFields_success h) fieldList_labels_nodup
      "Cycle" .cycleNum (by decide)
  rw [hlk]
  exact congrArg some hspec

theorem computeFields_lookup_timestamp {cyc : Nat} {ts : ℚ} {b : Backing}
    {fs : List (String × Cell)} (h : computeFields cyc ts b = (fs, none)) :
    fs.lookup "Timestamp" = some (.timeIso ts) := by
  obtain ⟨cell, hlk, hspec⟩ :=
    forall2_lookup (computeFields_success h) fieldList_labels_nodup
      "Timestamp" .tsIso (by decide)
  rw [hlk]
  exact congrArg some hspec

theorem computeFields_lookup_elapsed {cyc : Nat} {ts : ℚ} {b : Backing}
    {fs : List (String × Cell)} (h : computeFields cyc ts b = (fs, none)) :
    ∃ v, resolveCreateTimeQ (some b) = some v ∧
      fs.lookup "Elapsed" = some (.rat (ts - v)) := by
  obtain ⟨cell, hlk, hspec⟩ :=
    forall2_lookup (computeFields_success h) fieldList_labels_nodup
      "Elapsed" .elapsed (by decide)
  obtain ⟨v, hv, hcell⟩ := hspec
  exact ⟨v, hv, by rw [hlk, hcell]⟩

theorem foldl_writefield_spec :
    ∀ (fs : List (String × Cell)) (w : MeasurementsWriter),
      (fs.foldl (fun w lc => w.writefield lc.1 lc.2) w).started = w.started ∧
      (fs.foldl (fun w lc => w.writefield lc.1 lc.2) w).rows = w.rows ∧
      (fs.foldl (fun w lc => w.writefield lc.1 lc.2) w).record
        = w.record ++ fs.map Prod.snd ∧
      (fs.foldl (fun w lc => w.writefield lc.1 lc.2) w).header
        = (if w.started then w.header else w.header ++ fs.map Prod.fst) := by
  intro fs
  induction fs with
  | nil =>
    intro w
    refine ⟨rfl, rfl, by simp, ?_⟩
    cases h : w.started <;> simp
  | cons lc rest ih =>
    intro w
    have hstep : (lc :: rest).foldl (fun w lc => w.writefield lc.1 lc.2) w
        = rest.foldl (fun w lc => w.writefield lc.1 lc.2) (w.writefield lc.1 lc.2) := rfl
    obtain ⟨ih1, ih2, ih3, ih4⟩ := ih (w.writefield lc.1 lc.2)
    rw [hstep]
    refine ⟨by rw [ih1]; rfl, by rw [ih2]; rfl, ?_, ?_⟩
    · rw [ih3]
      simp [MeasurementsWriter.writefield]
    · rw [ih4]
      cases h : w.started with
      | true => simp [MeasurementsWriter.writefield, h]
      | false => simp [MeasurementsWriter.writefield, h]

theorem writerecord_not_started {w : MeasurementsWriter} (h : w.started = false) :
    w.writerecord =
      ⟨true, w.header, [], (w.rows ++ [w.header]) ++ [w.record.map Cell.render]⟩ := by
  simp [MeasurementsWriter.writerecord, h]

theorem writerecord_started {w : MeasurementsWriter} (h : w.started = true) :
    w.writerecord = ⟨true, w.header, [], w.rows ++ [w.record.map Cell.render]⟩ := by
  simp [MeasurementsWriter.writerecord, h]

theorem writeprocess_committed_eq {w : MeasurementsWriter} {cyc : Nat} {ts : ℚ}
    {b : Backing} {w2 : MeasurementsWriter} {fs : List (String × Cell)}
    (h : w.writeprocess cyc ts b = .committed w2 fs) :
    computeFields cyc ts b = (fs, none) ∧
      w2 = (fs.foldl (fun w lc => w.writefield lc.1 lc.2) w).writerecord := by
  rcases hcf : computeFields cyc ts b with ⟨fs1, err⟩
  rw [MeasurementsWriter.writeprocess, hcf] at h
  cases err with
  | none =>
    simp only [WPResult.committed.injEq] at h
    obtain ⟨h1, h2⟩ := h
    subst h2
    exact ⟨rfl, h1.symm⟩
  | some e => exact WPResult.noConfusion h

theorem writeprocess_failed_eq {w : MeasurementsWriter} {cyc : Nat} {ts : ℚ}
    {b : Backing} {w2 : MeasurementsWriter} {e : PyErr}
    (h : w.writeprocess cyc ts b = .failed w2 e) :
    w2.rows = w.rows ∧ w2.started = w.started := by
  rcases hcf : computeFields cyc ts b with ⟨fs1, err⟩
  rw [MeasurementsWriter.writeprocess, hcf] at h
  cases err with
  | none => exact WPResult.noConfusion h
  | some e2 =>
    simp only [WPResult.failed.injEq] at h
    obtain ⟨h1, -⟩ := h
    rw [← h1]
    obtain ⟨h1', h2', -, -⟩ := foldl_writefield_spec fs1 w
    exact ⟨h2', h1'⟩

theorem writeprocess_shape {w : MeasurementsWriter} {n : Nat} {cyc : Nat} {ts : ℚ}
    {b : Backing} {w2 : MeasurementsWriter} {fs : List (String × Cell)}
    (hs : WriterShape w n) (h : w.writeprocess cyc ts b = .committed w2 fs) :
    WriterShape w2 (n + 1) := by
  obtain ⟨hcf, hw2⟩ := writeprocess_committed_eq h
  have hlabels := computeFields_labels hcf
  have hlen := computeFields_length hcf
  obtain ⟨hrecord, hdisj⟩ := hs
  obtain ⟨hst, hrows, hrec, hhead⟩ := foldl_writefield_spec fs w
  have hrowlen : ((fs.map Prod.snd).map Cell.render).length = headerLabels.length := by
    simp [hlen]
  rcases hdisj with ⟨hs1, hs2, hs3, hs4⟩ | ⟨hs1, hs2, data, hs3, hs4, hs5⟩
  · -- first committed record: header gets pinned
    have hst' : (fs.foldl (fun w lc => w.writefield lc.1 lc.2) w).started = false := by
      rw [hst, hs1]
    rw [hw2, writerecord_not_started hst']
    have hhead' : (fs.foldl (fun w lc => w.writefield lc.1 lc.2) w).header
        = headerLabels := by
      rw [hhead, hs1]
      simp [hs2, hlabels]
    refine ⟨rfl, Or.inr ⟨rfl, hhead', [((fs.map Prod.snd).map Cell.render)], ?_, ?_, ?_⟩⟩
    · rw [hrows, hs3, hhead', hrec, hrecord]
      simp
    · simp [hs4]
    · intro r hr
      rcases List.mem_singleton.mp hr with rfl
      exact hrowlen
  · -- header already pinned
    have hst' : (fs.foldl (fun w lc => w.writefield lc.1 lc.2) w).started = true := by
      rw [hst, hs1]
    rw [hw2, writerecord_started hst']
    have hhead' : (fs.foldl (fun w lc => w.writefield lc.1 lc.2) w).header
        = headerLabels := by
      rw [hhead, hs1]
      simp [hs2]
    refine ⟨rfl, Or.inr ⟨rfl, hhead',
      data ++ [((fs.map Prod.snd).map Cell.render)], ?_, ?_, ?_⟩⟩
    · rw [hrows, hs3, hrec, hrecord]
      simp
    · simp [hs4]
    · intro r hr
      rcases List.mem_append.mp hr with hr | hr
      · exact hs5 r hr
      · rcases List.mem_singleton.mp hr with rfl
        exact hrowlen

theorem shape_rowsOK {w : MeasurementsWriter} {n : Nat} (hs : WriterShape w n) :
    RowsOK w n := by
  obtain ⟨-, hdisj⟩ := hs
  rcases hdisj with ⟨-, -, hrows, hn⟩ | ⟨-, -, data, h1, h2, h3⟩
  · exact Or.inl ⟨hn, hrows⟩
  · exact Or.inr ⟨data, h1, h2, h3⟩

theorem writeprocess_failed_rowsOK {w : MeasurementsWriter} {n : Nat} {cyc : Nat}
    {ts : ℚ} {b : Backing} {w2 : MeasurementsWriter} {e : PyErr}
    (hs : WriterShape w n) (h : w.writeprocess cyc ts b = .failed w2 e) :
    RowsOK w2 n := by
  obtain ⟨hrows, -⟩ := writeprocess_failed_eq h
  rcases shape_rowsOK hs with ⟨hn, hr⟩ | ⟨data, h1, h2, h3⟩
  · exact Or.inl ⟨hn, by rw [hrows, hr]⟩
  · exact Or.inr ⟨data, by rw [hrows, h1], h2, h3⟩

theorem runPass_nil {cyc : Nat} {clock : Nat → ℚ} {w : MeasurementsWriter} {k : Nat} :
    runPass cyc clock [] w k = ⟨w, k, [], [], none⟩ := rfl

theorem runPass_trace_passEv {cyc : Nat} {clock : Nat → ℚ} :
    ∀ (procs : List Proc) (w : MeasurementsWriter) (k : Nat),
      ∀ e ∈ (runPass cyc clock procs w k).trace, isPassEv e = true := by
  intro procs
  induction procs with
  | nil => intro w k e he; simp [runPass_nil] at he
  | cons p ps ih =>
    intro w k e he
    rw [runPass] at he
    cases hwp : w.writeprocess cyc (clock k) p.backing with
    | failed w2 er =>
      simp only [hwp] at he
      rcases List.mem_singleton.mp he with rfl
      rfl
    | committed w2 fs =>
      simp only [hwp] at he
      rcases List.mem_cons.mp he with rfl | he2
      · rfl
      · exact ih w2 (k + 1) e he2

theorem runPass_trace_success {cyc : Nat} {clock : Nat → ℚ} :
    ∀ (procs : List Proc) (w : MeasurementsWriter) (k : Nat),
      (runPass cyc clock procs w k).err = none →
      (runPass cyc clock procs w k).trace
        = procs.map (fun p => Ev.recEv cyc p.pid) := by
  intro procs
  induction procs with
  | nil => intro w k _; simp [runPass_nil]
  | cons p ps ih =>
    intro w k herr
    rw [runPass] at herr ⊢
    cases hwp : w.writeprocess cyc (clock k) p.backing with
    | failed w2 er => simp only [hwp] at herr; exact absurd herr (by simp)
    | committed w2 fs =>
      simp only [hwp] at herr ⊢
      simp only [List.map_cons, List.cons.injEq, true_and]
      exact ih w2 (k + 1) herr

theorem runPass_recs {cyc : Nat} {clock : Nat → ℚ} :
    ∀ (procs : List Proc) (w : MeasurementsWriter) (k : Nat)
      (c : Nat) (fs : List (String × Cell)),
      (c, fs) ∈ (runPass cyc clock procs w k).recs →
      c = cyc ∧ fs.lookup "Cycle" = some (.int (Int.ofNat cyc)) := by
  intro procs
  induction procs with
  | nil => intro w k c fs h; simp [runPass_nil] at h
  | cons p ps ih =>
    intro w k c fs h
    rw [runPass] at h
    cases hwp : w.writeprocess cyc (clock k) p.backing with
    | failed w2 er => simp only [hwp] at h; simp at h
    | committed w2 fs2 =>
      simp only [hwp] at h
      rcases List.mem_cons.mp h with heq | h2
      · obtain ⟨h1, h2⟩ := Prod.mk.injEq .. ▸ heq
        have hc : c = cyc := by cases heq; rfl
        have hf : fs = fs2 := by cases heq; rfl
        subst hc hf
        obtain ⟨hcf, -⟩ := writeprocess_committed_eq hwp
        exact ⟨rfl, computeFields_lookup_cycle hcf⟩
      · exact ih w2 (k + 1) c fs h2

theorem runPass_cons_committed {cyc : Nat} {clock : Nat → ℚ} {p : Proc}
    {ps : List Proc} {w : MeasurementsWriter} {k : Nat}
    {w2 : MeasurementsWriter} {fs : List (String × Cell)}
    (hwp : w.writeprocess cyc (clock k) p.backing = .committed w2 fs) :
    runPass cyc clock (p :: ps) w k =
      ⟨(runPass cyc clock ps w2 (k + 1)).writer,
       (runPass cyc clock ps w2 (k + 1)).nextIdx,
       .recEv cyc p.pid :: (runPass cyc clock ps w2 (k + 1)).trace,
       (cyc, fs) :: (runPass cyc clock ps w2 (k + 1)).recs,
       (runPass cyc clock ps w2 (k + 1)).err⟩ := by
  rw [runPass, hwp]

theorem runPass_cons_failed {cyc : Nat} {clock : Nat → ℚ} {p : Proc}
    {ps : List Proc} {w : MeasurementsWriter} {k : Nat}
    {w2 : MeasurementsWriter} {e : PyErr}
    (hwp : w.writeprocess cyc (clock k) p.backing = .failed w2 e) :
    runPass cyc clock (p :: ps) w k = ⟨w2, k + 1, [.abortedEv e], [], some e⟩ := by
  rw [runPass, hwp]

theorem runPass_shape {cyc : Nat} {clock : Nat → ℚ} :
    ∀ (procs : List Proc) (w : MeasurementsWriter) (k : Nat) (n : Nat),
      WriterShape w n →
      ((runPass cyc clock procs w k).err = none →
        WriterShape (runPass cyc clock procs w k).writer
          (n + (runPass cyc clock procs w k).recs.length)) ∧
      RowsOK (runPass cyc clock procs w k).writer
        (n + (runPass cyc clock procs w k).recs.length) := by
  intro procs
  induction procs with
  | nil =>
    intro w k n hs
    rw [runPass_nil]
    exact ⟨fun _ => hs, shape_rowsOK hs⟩
  | cons p ps ih =>
    intro w k n hs
    cases hwp : w.writeprocess cyc (clock k) p.backing with
    | failed w2 er =>
      rw [runPass_cons_failed hwp]
      refine ⟨fun hcontra => absurd hcontra (by simp), ?_⟩
      exact writeprocess_failed_rowsOK hs hwp
    | committed w2 fs =>
      have hs2 := writeprocess_shape hs hwp
      have hrest := ih w2 (k + 1) (n + 1) hs2
      rw [runPass_cons_committed hwp]
      dsimp only [List.length_cons]
      have harith : n + ((runPass cyc clock ps w2 (k + 1)).recs.length + 1)
          = (n + 1) + (runPass cyc clock ps w2 (k + 1)).recs.length := by omega
      rw [harith]
      exact hrest

theorem runLoop_zero {env : RunEnv} {sv : SecondsVal} {i cyc k : Nat}
    {w : MeasurementsWriter} :
    runLoopAux env sv 0 i cyc k w = ⟨[], [], w, none, false⟩ := rfl

theorem runLoop_stop {env : RunEnv} {sv : SecondsVal} {fuel i cyc k : Nat}
    {w : MeasurementsWriter}
    (hcond : ((env.obs i).isRunning && !(env.obs i).isZombie) = false) :
    runLoopAux env sv (fuel + 1) i cyc k w
      = ⟨[.check false, .waited], [], w, none, true⟩ := by
  rw [runLoopAux, hcond]

theorem runLoop_abort {env : RunEnv} {sv : SecondsVal} {fuel i cyc k : Nat}
    {w : MeasurementsWriter} {e : PyErr}
    (hcond : ((env.obs i).isRunning && !(env.obs i).isZombie) = true)
    (hpe : (passAt env w i cyc k).err = some e) :
    runLoopAux env sv (fuel + 1) i cyc k w
      = ⟨.check true :: .startPass (cyc + 1) :: (passAt env w i cyc k).trace,
         (passAt env w i cyc k).recs, (passAt env w i cyc k).writer,
         some e, false⟩ := by
  rw [runLoopAux, hcond]
  simp only [hpe]

theorem runLoop_sleepErr {env : RunEnv} {sv : SecondsVal} {fuel i cyc k : Nat}
    {w : MeasurementsWriter} {e : PyErr}
    (hcond : ((env.obs i).isRunning && !(env.obs i).isZombie) = true)
    (hpe : (passAt env w i cyc k).err = none)
    (hsl : timeSleep sv = .error e) :
    runLoopAux env sv (fuel + 1) i cyc k w
      = ⟨.check true :: .startPass (cyc + 1)
            :: ((passAt env w i cyc k).trace ++ [.abortedEv e]),
         (passAt env w i cyc k).recs, (passAt env w i cyc k).writer,
         some e, false⟩ := by
  rw [runLoopAux, hcond]
  simp only [hpe, hsl]

theorem runLoop_step {env : RunEnv} {sv : SecondsVal} {fuel i cyc k : Nat}
    {w : MeasurementsWriter}
    (hcond : ((env.obs i).isRunning && !(env.obs i).isZombie) = true)
    (hpe : (passAt env w i cyc k).err = none)
    (hsl : timeSleep sv = .ok ()) :
    runLoopAux env sv (fuel + 1) i cyc k w
      = ⟨.check true :: .startPass (cyc + 1)
            :: ((passAt env w i cyc k).trace ++ .slept
                :: (runLoopAux env sv fuel (i + 1) (cyc + 1)
                      (passAt env w i cyc k).nextIdx
                      (passAt env w i cyc k).writer).trace),
         (passAt env w i cyc k).recs
           ++ (runLoopAux env sv fuel (i + 1) (cyc + 1)
                 (passAt env w i cyc k).nextIdx
                 (passAt env w i cyc k).writer).recs,
         (runLoopAux env sv fuel (i + 1) (cyc + 1)
            (passAt env w i cyc k).nextIdx (passAt env w i cyc k).writer).writer,
         (runLoopAux env sv fuel (i + 1) (cyc + 1)
            (passAt env w i cyc k).nextIdx (passAt env w i cyc k).writer).aborted,
         (runLoopAux env sv fuel (i + 1) (cyc + 1)
            (passAt env w i cyc k).nextIdx (passAt env w i cyc k).writer).waitedFlag⟩ := by
  rw [runLoopAux, hcond]
  simp only [hpe, hsl]

theorem runLoop_shape {env : RunEnv} {sv : SecondsVal} :
    ∀ (fuel i cyc k : Nat) (w : MeasurementsWriter) (n : Nat),
      WriterShape w n →
      RowsOK (runLoopAux env sv fuel i cyc k w).writer
        (n + (runLoopAux env sv fuel i cyc k w).recs.length) := by
  intro fuel
  induction fuel with
  | zero =>
    intro i cyc k w n hs
    rw [runLoop_zero]
    exact shape_rowsOK hs
  | succ fuel ih =>
    intro i cyc k w n hs
    cases hcond : (env.obs i).isRunning && !(env.obs i).isZombie with
    | false =>
      rw [runLoop_stop hcond]
      exact shape_rowsOK hs
    | true =>
      cases hpe : (passAt env w i cyc k).err with
      | some e =>
        rw [runLoop_abort hcond hpe]
        exact (runPass_shape _ w k n hs).2
      | none =>
        cases hsl : timeSleep sv with
        | error e =>
          rw [runLoop_sleepErr hcond hpe hsl]
          exact shape_rowsOK ((runPass_shape _ w k n hs).1 hpe)
        | ok u =>
          cases u
          rw [runLoop_step hcond hpe hsl]
          have h1 : WriterShape (passAt env w i cyc k).writer
              (n + (passAt env w i cyc k).recs.length) :=
            (runPass_shape _ w k n hs).1 hpe
          have h2 := ih (i + 1) (cyc + 1) (passAt env w i cyc k).nextIdx
            (passAt env w i cyc k).writer (n + (passAt env w i cyc k).recs.length) h1
          have harith : n + ((passAt env w i cyc k).recs
                ++ (runLoopAux env sv fuel (i + 1) (cyc + 1)
                      (passAt env w i cyc k).nextIdx
                      (passAt env w i cyc k).writer).recs).length
              = (n + (passAt env w i cyc k).recs.length)
                + (runLoopAux env sv fuel (i + 1) (cyc + 1)
                      (passAt env w i cyc k).nextIdx
                      (passAt env w i cyc k).writer).recs.length := by
            rw [List.length_append]
            omega
          rw [harith]
          exact h2

theorem runLoop_recs {env : RunEnv} {sv : SecondsVal} :
    ∀ (fuel i cyc k : Nat) (w : MeasurementsWriter) (c : Nat)
      (fs : List (String × Cell)),
      (c, fs) ∈ (runLoopAux env sv fuel i cyc k w).recs →
      fs.lookup "Cycle" = some (.int (Int.ofNat c)) ∧ cyc + 1 ≤ c := by
  intro fuel
  induction fuel with
  | zero => intro i cyc k w c fs h; rw [runLoop_zero] at h; simp at h
  | succ fuel ih =>
    intro i cyc k w c fs h
    cases hcond : (env.obs i).isRunning && !(env.obs i).isZombie with
    | false => rw [runLoop_stop hcond] at h; simp at h
    | true =>
      cases hpe : (passAt env w i cyc k).err with
      | some e =>
        rw [runLoop_abort hcond hpe] at h
        obtain ⟨hc, hlk⟩ := runPass_recs _ w k c fs h
        exact ⟨by rw [hc]; exact hlk, by omega⟩
      | none =>
        cases hsl : timeSleep sv with
        | error e =>
          rw [runLoop_sleepErr hcond hpe hsl] at h
          obtain ⟨hc, hlk⟩ := runPass_recs _ w k c fs h
          exact ⟨by rw [hc]; exact hlk, by omega⟩
        | ok u =>
          cases u
          rw [runLoop_step hcond hpe hsl] at h
          rcases List.mem_append.mp h with h2 | h2
          · obtain ⟨hc, hlk⟩ := runPass_recs _ w k c fs h2
            exact ⟨by rw [hc]; exact hlk, by omega⟩
          · obtain ⟨hlk, hge⟩ := ih (i + 1) (cyc + 1)
              (passAt env w i cyc k).nextIdx (passAt env w i cyc k).writer c fs h2
            exact ⟨hlk, by omega⟩

theorem startPassCycles_passTrace {cyc : Nat} {clock : Nat → ℚ}
    {procs : List Proc} {w : MeasurementsWriter} {k : Nat} :
    startPassCycles (runPass cyc clock procs w k).trace = [] := by
  rw [startPassCycles, List.filterMap_eq_nil_iff]
  intro e he
  have hp := runPass_trace_passEv procs w k e he
  cases e <;> simp_all [isPassEv]

theorem startPassCycles_passAt {env : RunEnv} {w : MeasurementsWriter}
    {i cyc k : Nat} : startPassCycles (passAt env w i cyc k).trace = [] :=
  startPassCycles_passTrace

theorem startPassCycles_loop {env : RunEnv} {sv : SecondsVal} :
    ∀ (fuel i cyc k : Nat) (w : MeasurementsWriter),
      ∃ n, startPassCycles (runLoopAux env sv fuel i cyc k w).trace
        = cycleSeq (cyc + 1) n := by
  intro fuel
  induction fuel with
  | zero => intro i cyc k w; exact ⟨0, by rw [runLoop_zero]; rfl⟩
  | succ fuel ih =>
    intro i cyc k w
    cases hcond : (env.obs i).isRunning && !(env.obs i).isZombie with
    | false => exact ⟨0, by rw [runLoop_stop hcond]; rfl⟩
    | true =>
      cases hpe : (passAt env w i cyc k).err with
      | some e =>
        refine ⟨1, ?_⟩
        rw [runLoop_abort hcond hpe]
        rw [startPassCycles]
        simp only [List.filterMap_cons]
        rw [← startPassCycles, startPassCycles_passAt]
        rfl
      | none =>
        cases hsl : timeSleep sv with
        | error e =>
          refine ⟨1, ?_⟩
          rw [runLoop_sleepErr hcond hpe hsl]
          rw [startPassCycles]
          simp only [List.filterMap_cons, List.filterMap_append, List.filterMap_nil]
          rw [← startPassCycles, startPassCycles_passAt]
          rfl
        | ok u =>
          cases u
          obtain ⟨n, hn⟩ := ih (i + 1) (cyc + 1)
            (passAt env w i cyc k).nextIdx (passAt env w i cyc k).writer
          refine ⟨n + 1, ?_⟩
          rw [runLoop_step hcond hpe hsl]
          rw [startPassCycles]
          simp only [List.filterMap_cons, List.filterMap_append]
          rw [← startPassCycles, ← startPassCycles, startPassCycles_passAt, hn]
          rfl

theorem passTrace_not_cf_waited {env : RunEnv} {w : MeasurementsWriter}
    {i cyc k : Nat} :
    ∀ e ∈ (passAt env w i cyc k).trace, e ≠ Ev.check false ∧ e ≠ Ev.waited := by
  intro e he
  have hp := runPass_trace_passEv
    (sortByPid (env.root :: (env.obs i).children)) w k e he
  cases e <;> simp_all [isPassEv]

theorem runLoop_char {env : RunEnv} {sv : SecondsVal} :
    ∀ (fuel i cyc k : Nat) (w : MeasurementsWriter),
      ∃ body : List Ev,
        ((runLoopAux env sv fuel i cyc k w).trace
            = body ++ [Ev.check false, Ev.waited] ∨
         (runLoopAux env sv fuel i cyc k w).trace = body) ∧
        ∀ e ∈ body, e ≠ Ev.check false ∧ e ≠ Ev.waited := by
  intro fuel
  induction fuel with
  | zero =>
    intro i cyc k w
    exact ⟨[], Or.inr (by rw [runLoop_zero]), by simp⟩
  | succ fuel ih =>
    intro i cyc k w
    cases hcond : (env.obs i).isRunning && !(env.obs i).isZombie with
    | false =>
      refine ⟨[], Or.inl ?_, by simp⟩
      rw [runLoop_stop hcond]
      rfl
    | true =>
      cases hpe : (passAt env w i cyc k).err with
      | some e =>
        refine ⟨.check true :: .startPass (cyc + 1) :: (passAt env w i cyc k).trace,
          Or.inr (by rw [runLoop_abort hcond hpe]), ?_⟩
        intro e2 he2
        rcases List.mem_cons.mp he2 with rfl | he2
        · exact ⟨by simp, by simp⟩
        rcases List.mem_cons.mp he2 with rfl | he2
        · exact ⟨by simp, by simp⟩
        exact passTrace_not_cf_waited e2 he2
      | none =>
        cases hsl : timeSleep sv with
        | error e =>
          refine ⟨.check true :: .startPass (cyc + 1)
              :: ((passAt env w i cyc k).trace ++ [.abortedEv e]),
            Or.inr (by rw [runLoop_sleepErr hcond hpe hsl]), ?_⟩
          intro e2 he2
          rcases List.mem_cons.mp he2 with rfl | he2
          · exact ⟨by simp, by simp⟩
          rcases List.mem_cons.mp he2 with rfl | he2
          · exact ⟨by simp, by simp⟩
          rcases List.mem_append.mp he2 with he2 | he2
          · exact passTrace_not_cf_waited e2 he2
          · rcases List.mem_singleton.mp he2 with rfl
            exact ⟨by simp, by simp⟩
        | ok u =>
          cases u
          obtain ⟨body2, hdisj, hbody2⟩ := ih (i + 1) (cyc + 1)
            (passAt env w i cyc k).nextIdx (passAt env w i cyc k).writer
          have hmem : ∀ e2 ∈ Ev.check true :: Ev.startPass (cyc + 1)
              :: ((passAt env w i cyc k).trace ++ Ev.slept :: body2),
              e2 ≠ Ev.check false ∧ e2 ≠ Ev.waited := by
            intro e2 he2
            rcases List.mem_cons.mp he2 with rfl | he2
            · exact ⟨by simp, by simp⟩
            rcases List.mem_cons.mp he2 with rfl | he2
            · exact ⟨by simp, by simp⟩
            rcases List.mem_append.mp he2 with he2 | he2
            · exact passTrace_not_cf_waited e2 he2
            rcases List.mem_cons.mp he2 with rfl | he2
            · exact ⟨by simp, by simp⟩
            exact hbody2 e2 he2
          refine ⟨.check true :: .startPass (cyc + 1)
              :: ((passAt env w i cyc k).trace ++ .slept :: body2), ?_, hmem⟩
          rcases hdisj with hd | hd
          · left
            rw [runLoop_step hcond hpe hsl]
            simp only [hd, List.cons_append, List.append_assoc]
          · right
            rw [runLoop_step hcond hpe hsl]
            rw [hd]

theorem split_unique {x : Ev} :
    ∀ (body tail pre post : List Ev),
      (∀ e ∈ body, e ≠ x) → (∀ e ∈ tail, e ≠ x) →
      body ++ x :: tail = pre ++ x :: post → post = tail := by
  intro body
  induction body with
  | nil =>
    intro tail pre post _ htail h
    cases pre with
    | nil =>
      simp only [List.nil_append, List.cons.injEq] at h
      exact h.2.symm
    | cons y pre2 =>
      simp only [List.nil_append, List.cons_append, List.cons.injEq] at h
      obtain ⟨hy, ht⟩ := h
      have hx : x ∈ tail := by
        rw [ht]
        exact List.mem_append.mpr (Or.inr (List.mem_cons_self _ _))
      exact absurd rfl (htail x hx)
  | cons b body2 ih =>
    intro tail pre post hbody htail h
    cases pre with
    | nil =>
      simp only [List.cons_append, List.nil_append, List.cons.injEq] at h
      exact absurd h.1 (hbody b (List.mem_cons_self _ _))
    | cons y pre2 =>
      simp only [List.cons_append, List.cons.injEq] at h
      exact ih tail pre2 post (fun e he => hbody e (List.mem_cons_of_mem _ he))
        htail h.2

theorem countP_zero_of_pass {env : RunEnv} {w : MeasurementsWriter}
    {i cyc k : Nat} {p : Ev → Bool}
    (hp : ∀ e, isPassEv e = true → p e = false) :
    (passAt env w i cyc k).trace.countP p = 0 := by
  rw [List.countP_eq_zero]
  intro e he
  have h := runPass_trace_passEv
    (sortByPid (env.root :: (env.obs i).children)) w k e he
  simp [hp e h]

theorem runLoop_counts {env : RunEnv} {sv : SecondsVal} :
    ∀ (fuel i cyc k : Nat) (w : MeasurementsWriter),
      (runLoopAux env sv fuel i cyc k w).trace.countP isStartPassEv
        = (runLoopAux env sv fuel i cyc k w).trace.countP isCheckTrueEv := by
  have hsp : ∀ e, isPassEv e = true → isStartPassEv e = false := by
    intro e h; cases e <;> simp_all [isPassEv, isStartPassEv]
  have hct : ∀ e, isPassEv e = true → isCheckTrueEv e = false := by
    intro e h; cases e <;> simp_all [isPassEv, isCheckTrueEv]
  intro fuel
  induction fuel with
  | zero => intro i cyc k w; rw [runLoop_zero]; rfl
  | succ fuel ih =>
    intro i cyc k w
    cases hcond : (env.obs i).isRunning && !(env.obs i).isZombie with
    | false => rw [runLoop_stop hcond]; rfl
    | true =>
      cases hpe : (passAt env w i cyc k).err with
      | some e =>
        rw [runLoop_abort hcond hpe]
        simp only [List.countP_cons, isStartPassEv, isCheckTrueEv,
          countP_zero_of_pass hsp, countP_zero_of_pass hct]
        simp
      | none =>
        cases hsl : timeSleep sv with
        | error e =>
          rw [runLoop_sleepErr hcond hpe hsl]
          simp only [List.countP_cons, List.countP_append, List.countP_nil,
            isStartPassEv, isCheckTrueEv,
            countP_zero_of_pass hsp, countP_zero_of_pass hct]
          simp
        | ok u =>
          cases u
          rw [runLoop_step hcond hpe hsl]
          have := ih (i + 1) (cyc + 1)
            (passAt env w i cyc k).nextIdx (passAt env w i cyc k).writer
          simp only [List.countP_cons, List.countP_append,
            isStartPassEv, isCheckTrueEv,
            countP_zero_of_pass hsp, countP_zero_of_pass hct, this]
          simp

/- Claim theorems. -/

/-- C1 counterexample: on a process whose `cpu_times` attribute raises
`psutil.AccessDenied`, reading the nested dotted path `cpu_times.system`
propagates an `AttributeError` out of the Safe Attribute Accessor layer (the
substituted "Transient Error" string has no `system` attribute), so
`writeprocess` aborts with an exception even though the failing field read was
an unauthorized one — refuting the claim that no exception is ever propagated
for a missing or unauthorized field, including nested dotted paths. -/
theorem C1_nested_denied_raises :
    evalField 1 5 (.attr2 "cpu_times" "system") (.mk (some bC1) [])
        = .error .attributeError ∧
      (computeFields 1 5 bC1).2 = some .attributeError :=
  ⟨rfl, rfl⟩

/-- C1 (amended): a missing attribute — at the top level or at any step of a
dotted path — resolves to the "not available" wrapper, which renders as the
non-empty string "N/A" in the record cell; an access-denied invocation
resolves to the literal string "Transient Error", also when it happens at the
final step of a dotted path; but when access is denied on an intermediate
attribute of a dotted path, the substituted "Transient Error" string makes the
following attribute access raise `AttributeError`, which propagates. -/
theorem C1_sentinels_amended (b sub : Backing) (name a x : String)
    (cyc : Nat) (ts : ℚ) :
    (b.attrsOf.lookup name = none →
      resolveAttr (some b) name = .ok (.node (.mk none []))) ∧
    (b.attrsOf.lookup name = some (.call .accessDenied) →
      resolveAttr (some b) name = .ok (.str "Transient Error")) ∧
    (b.attrsOf.lookup a = none →
      ∃ p2, evalField cyc ts (.attr2 a x) (.mk (some b) [])
        = .ok (.node none, p2)) ∧
    (b.attrsOf.lookup a = some (.call (.ok (.obj sub))) →
      sub.attrsOf.lookup x = some (.call .accessDenied) →
      ∃ p2, evalField cyc ts (.attr2 a x) (.mk (some b) [])
        = .ok (.str "Transient Error", p2)) ∧
    (b.attrsOf.lookup a = some (.call .accessDenied) →
      evalField cyc ts (.attr2 a x) (.mk (some b) [])
        = .error .attributeError) ∧
    Cell.render (.node none) = "N/A" := by
  refine ⟨?_, ?_, ?_, ?_, ?_, rfl⟩
  · intro h
    simp only [resolveAttr, h]
    rfl
  · intro h
    simp only [resolveAttr, h]
    rfl
  · intro h
    refine ⟨.mk (some b) [(a, .node (.mk none [(x, .node (.mk none []))]))], ?_⟩
    simp only [evalField, SGNode.getattr, List.lookup_nil, resolveAttr, h,
      wrapDetails, SGRes.getattrStep, cellOfRes, SGNode.backingOf,
      SGNode.setCache, List.map_cons, List.map_nil, if_pos]
  · intro h hx
    refine ⟨.mk (some b) [(a, .node (.mk (some sub) [(x, .str "Transient Error")]))], ?_⟩
    simp only [evalField, SGNode.getattr, List.lookup_nil, resolveAttr, h, hx,
      wrapDetails, SGRes.getattrStep, cellOfRes, SGNode.backingOf,
      SGNode.setCache, List.map_cons, List.map_nil, if_pos]
  · intro h
    simp only [evalField, SGNode.getattr, List.lookup_nil, resolveAttr, h,
      wrapDetails, SGRes.getattrStep]

/-- C1 witness: concrete instances of the amended claim — a missing attribute
yields the "N/A" wrapper, a denied call yields "Transient Error", a dotted
path over a missing intermediate yields the "N/A" wrapper cell. -/
theorem C1_sentinels_witness :
    resolveAttr (some bGood) "num_fds" = .ok (.node (.mk none [])) ∧
      resolveAttr (some bDenied) "cwd" = .ok (.str "Transient Error") ∧
      ∃ p2, evalField 1 5 (.attr2 "memory_info" "rss") (.mk (some bGood) [])
        = .ok (.node none, p2) :=
  ⟨(C1_sentinels_amended bGood bGood "num_fds" "a" "b" 1 5).1 rfl,
   (C1_sentinels_amended bDenied bGood "cwd" "a" "b" 1 5).2.1 rfl,
   (C1_sentinels_amended bGood bGood "x" "memory_info" "rss" 1 5).2.2.1 rfl⟩

/-- C2 counterexample: a run in which the root is alive for exactly one
condition check and has one live child.  The loop body increments the cycle
counter before sampling, so the first records are stamped cycle 1 and that
first pass samples the whole tree (two processes).  No record of any cycle-0
sample of the root alone exists, refuting "cycle 0 samples only the root
process (before any sleep)". -/
theorem C2_no_cycle_zero_sample :
    (runMain envC2 (.float 1) 3).trace
        = [Ev.check true, Ev.startPass 1, Ev.recEv 1 1, Ev.recEv 1 2,
           Ev.slept, Ev.check false, Ev.waited] ∧
      (runMain envC2 (.float 1) 3).recs.map Prod.fst = [1, 1] ∧
      ∀ cf ∈ (runMain envC2 (.float 1) 3).recs, cf.1 ≠ 0 := by
  refine ⟨by decide, by decide, by decide⟩

/-- C2 (amended): the cycle counter starts at 0 and no record is written
before the loop; every pass increments the counter by exactly one at its
start, so the passes are numbered 1, 2, 3, ... consecutively, and the pass's
cycle number is stamped into the "Cycle" cell of every record written during
that pass (every record's cycle is therefore at least 1). -/
theorem C2_cycle_counter_amended (env : RunEnv) (sv : SecondsVal) (fuel : Nat) :
    (∀ c fs, (c, fs) ∈ (runMain env sv fuel).recs →
        fs.lookup "Cycle" = some (.int (Int.ofNat c)) ∧ 1 ≤ c) ∧
      ∃ n, startPassCycles (runMain env sv fuel).trace = cycleSeq 1 n := by
  constructor
  · intro c fs h
    exact runLoop_recs fuel 0 0 0 .init c fs h
  · exact startPassCycles_loop fuel 0 0 0 .init

/-- C2 witness: in the concrete two-process run, the record `(1, fs0)` is
committed, its "Cycle" cell is 1, and the pass numbers are consecutive
starting at 1. -/
theorem C2_cycle_counter_witness :
    (1, fs0) ∈ (runMain envC2 (.float 1) 3).recs ∧
      (fs0.lookup "Cycle" = some (.int (Int.ofNat 1)) ∧ 1 ≤ 1) ∧
      ∃ n, startPassCycles (runMain envC2 (.float 1) 3).trace = cycleSeq 1 n := by
  have hmem : (1, fs0) ∈ (runMain envC2 (.float 1) 3).recs := by
    rw [show (runMain envC2 (.float 1) 3).recs = [(1, fs0), (1, fs0)] from rfl]
    exact List.mem_cons_self _ _
  exact ⟨hmem, (C2_cycle_counter_amended envC2 (.float 1) 3).1 1 fs0 hmem,
    (C2_cycle_counter_amended envC2 (.float 1) 3).2⟩

/-- C3: the code has no handler around `writer.writeprocess`, so when a
process vanishes between enumeration and sampling, the `psutil.NoSuchProcess`
raised by its first method read propagates out of the loop: in a cycle
enumerating root (pid 1), a vanished pid 2 and a live pid 3, only the root is
sampled, pid 3 is never reached, no wait happens, and the whole run aborts —
contradicting the claimed per-process failure isolation. -/
theorem C3_vanished_process_aborts_run :
    (runMain envC3 (.float 1) 3).aborted = some (.uncaught "NoSuchProcess") ∧
      (runMain envC3 (.float 1) 3).trace
        = [Ev.check true, Ev.startPass 1, Ev.recEv 1 1,
           Ev.abortedEv (.uncaught "NoSuchProcess")] ∧
      (runMain envC3 (.float 1) 3).recs.map Prod.fst = [1] ∧
      (runMain envC3 (.float 1) 3).waitedFlag = false := by
  refine ⟨by decide, by decide, by decide, by decide⟩

/-- C4: in every run that commits at least one record, the first output line
is the header, whose labels are exactly the twenty-one labels of
`writeprocess` in order; the header line is written exactly once (every other
line is the rendering of one committed record), and every committed record
row has the same column count (21) as the header. -/
theorem C4_header_fixed_and_column_counts (env : RunEnv) (sv : SecondsVal)
    (fuel : Nat) (hne : (runMain env sv fuel).recs ≠ []) :
    ∃ data, (runMain env sv fuel).writer.rows
        = ["Timestamp", "PID", "PPID", "Image", "Elapsed", "System time",
           "User time", "Threads", "Active memory", "Virtual memory",
           "Read operations", "Read bytes", "Write operations", "Write bytes",
           "Cycle", "State", "File descriptors", "Shared memory",
           "Voluntary context switches", "Involuntary context switches",
           "Current working directory"] :: data ∧
      data.length = (runMain env sv fuel).recs.length ∧
      ∀ r ∈ data, r.length = 21 := by
  have hinit : WriterShape MeasurementsWriter.init 0 :=
    ⟨rfl, Or.inl ⟨rfl, rfl, rfl, rfl⟩⟩
  have h : RowsOK (runMain env sv fuel).writer
      (0 + (runMain env sv fuel).recs.length) :=
    runLoop_shape fuel 0 0 0 .init 0 hinit
  rcases h with ⟨hn, hrows⟩ | ⟨data, h1, h2, h3⟩
  · exact absurd (List.length_eq_zero.mp (by omega)) hne
  · refine ⟨data, h1, by omega, fun r hr => h3 r hr⟩

/-- C4 witness: the single-process run commits one record; its output is the
header line followed by one 21-column data row. -/
theorem C4_header_witness :
    (runMain envOnce (.float 1) 3).recs ≠ [] ∧
      ∃ data, (runMain envOnce (.float 1) 3).writer.rows
          = ["Timestamp", "PID", "PPID", "Image", "Elapsed", "System time",
             "User time", "Threads", "Active memory", "Virtual memory",
             "Read operations", "Read bytes", "Write operations", "Write bytes",
             "Cycle", "State", "File descriptors", "Shared memory",
             "Voluntary context switches", "Involuntary context switches",
             "Current working directory"] :: data ∧
        data.length = (runMain envOnce (.float 1) 3).recs.length ∧
        ∀ r ∈ data, r.length = 21 := by
  have hne : (runMain envOnce (.float 1) 3).recs ≠ [] :=
    List.ne_nil_of_length_pos (by decide)
  exact ⟨hne, C4_header_fixed_and_column_counts envOnce (.float 1) 3 hne⟩

/-- C5: resolving a field name on a Safe Attribute Accessor node queries the
backing object at most once, and resolving the same name again on the
resulting node returns the identical value, leaves the node unchanged, and
performs zero further backing queries (the `setattr` memoisation). -/
theorem C5_memoized_resolution (n : SGNode) (name : String) (r : SGRes)
    (n2 : SGNode) (q : Nat) (h : n.getattr name = .ok (r, n2, q)) :
    q ≤ 1 ∧ n2.getattr name = .ok (r, n2, 0) := by
  obtain ⟨b, cache⟩ := n
  rw [SGNode.getattr] at h
  cases hc : cache.lookup name with
  | some r1 =>
    simp only [hc, Except.ok.injEq, Prod.mk.injEq] at h
    obtain ⟨h1, h2, h3⟩ := h
    subst h1
    constructor
    · omega
    · rw [← h2, SGNode.getattr]
      simp only [hc]
  | none =>
    simp only [hc] at h
    cases hr : resolveAttr b name with
    | error e => simp only [hr] at h; exact Except.noConfusion h
    | ok r0 =>
      simp only [hr, Except.ok.injEq, Prod.mk.injEq] at h
      obtain ⟨h1, h2, h3⟩ := h
      subst h1
      subst h3
      constructor
      · cases b <;> simp [queryCost]
      · rw [← h2, SGNode.getattr]
        simp only [List.lookup_cons_self]

/-- C5 witness: reading `create_time` on a fresh wrapper over `bGood` costs
one backing query; the repeated read returns the identical value from the
cache with zero backing queries. -/
theorem C5_memoized_witness :
    (SGNode.mk (some bGood) []).getattr "create_time"
        = .ok (.float 0, .mk (some bGood) [("create_time", .float 0)], 1) ∧
      (1 ≤ 1 ∧
        (SGNode.mk (some bGood) [("create_time", .float 0)]).getattr "create_time"
          = .ok (.float 0, .mk (some bGood) [("create_time", .float 0)], 0)) :=
  ⟨rfl, C5_memoized_resolution (.mk (some bGood) []) "create_time"
    (.float 0) (.mk (some bGood) [("create_time", .float 0)]) 1 rfl⟩

/-- C6: once a condition check comes out false, the only thing the run does
afterwards is the final `wait` — so no record is written after loop exit — and
every sampling pass corresponds to exactly one true condition check (the pass
count equals the true-check count). -/
theorem C6_loop_condition (env : RunEnv) (sv : SecondsVal) (fuel : Nat) :
    (∀ pre post, (runMain env sv fuel).trace = pre ++ Ev.check false :: post →
        post = [Ev.waited]) ∧
    (runMain env sv fuel).trace.countP isStartPassEv
      = (runMain env sv fuel).trace.countP isCheckTrueEv := by
  constructor
  · intro pre post h
    obtain ⟨body, hdisj, hbody⟩ := @runLoop_char env sv fuel 0 0 0 .init
    rcases hdisj with hd | hd
    · have hd2 : (runMain env sv fuel).trace
          = body ++ [Ev.check false, Ev.waited] := hd
      rw [hd2] at h
      have hbody1 : ∀ e ∈ body, e ≠ Ev.check false := fun e he => (hbody e he).1
      have htail : ∀ e ∈ [Ev.waited], e ≠ Ev.check false := by
        intro e he
        rcases List.mem_singleton.mp he with rfl
        simp
      exact split_unique body [Ev.waited] pre post hbody1 htail h
    · have hd2 : (runMain env sv fuel).trace = body := hd
      rw [hd2] at h
      have hcf : Ev.check false ∈ body := by
        rw [h]
        exact List.mem_append.mpr (Or.inr (List.mem_cons_self _ _))
      exact absurd rfl ((hbody _ hcf).1)
  · exact runLoop_counts fuel 0 0 0 .init

/-- C6 witness: in the single-process run the trace splits at the false check
and the suffix after it is exactly the wait event. -/
theorem C6_loop_condition_witness :
    (runMain envOnce (.float 1) 3).trace
        = [Ev.check true, Ev.startPass 1, Ev.recEv 1 1, Ev.slept]
          ++ Ev.check false :: [Ev.waited] ∧
      ([Ev.waited] : List Ev) = [Ev.waited] :=
  ⟨by decide, (C6_loop_condition envOnce (.float 1) 3).1
    [Ev.check true, Ev.startPass 1, Ev.recEv 1 1, Ev.slept] [Ev.waited]
    (by decide)⟩

/-- C7: the sequence `sorted([first, *children], key=lambda _: _.pid)` is a
permutation of the root plus the enumerated descendants; when the pids are
distinct (as live pids are) it is strictly ascending; and a pass over that
sequence with no sampling failure emits exactly one record event per process
in that order. -/
theorem C7_tree_order (root : Proc) (children : List Proc) :
    (sortByPid (root :: children)).Perm (root :: children) ∧
    (((root :: children).map Proc.pid).Nodup →
      ((sortByPid (root :: children)).map Proc.pid).Pairwise (· < ·)) ∧
    ∀ (cyc : Nat) (clock : Nat → ℚ) (w : MeasurementsWriter) (k : Nat),
      (runPass cyc clock (sortByPid (root :: children)) w k).err = none →
      (runPass cyc clock (sortByPid (root :: children)) w k).trace
        = (sortByPid (root :: children)).map (fun p => Ev.recEv cyc p.pid) := by
  haveI instTot : IsTotal Proc (fun a b => a.pid ≤ b.pid) :=
    ⟨fun a b => Int.le_total a.pid b.pid⟩
  haveI instTrans : IsTrans Proc (fun a b => a.pid ≤ b.pid) :=
    ⟨fun _ _ _ hab hbc => le_trans hab hbc⟩
  refine ⟨List.perm_insertionSort _ _, ?_, ?_⟩
  · intro hnd
    have hsorted : List.Sorted (fun a b => a.pid ≤ b.pid)
        (sortByPid (root :: children)) := List.sorted_insertionSort _ _
    have hperm := List.perm_insertionSort
      (fun a b : Proc => a.pid ≤ b.pid) (root :: children)
    have hnd2 : ((sortByPid (root :: children)).map Proc.pid).Nodup :=
      ((hperm.map Proc.pid).nodup_iff).mpr hnd
    have hle : ((sortByPid (root :: children)).map Proc.pid).Pairwise (· ≤ ·) :=
      List.Pairwise.map Proc.pid (fun _ _ hh => hh) hsorted
    exact (hle.and hnd2).imp fun hh => lt_of_le_of_ne hh.1 hh.2
  · intro cyc clock w k herr
    exact runPass_trace_success _ w k herr

/-- C7 witness: a concrete two-process tree with distinct pids — the sorted
order is a permutation, the pids are strictly ascending, and the pass emits
records for pid 1 then pid 2. -/
theorem C7_tree_order_witness :
    (sortByPid (procRoot :: [child2])).Perm (procRoot :: [child2]) ∧
      (((procRoot :: [child2]).map Proc.pid).Nodup ∧
        ((sortByPid (procRoot :: [child2])).map Proc.pid).Pairwise (· < ·)) ∧
      ((runPass 1 (fun _ => 5) (sortByPid (procRoot :: [child2]))
          .init 0).err = none ∧
        (runPass 1 (fun _ => 5) (sortByPid (procRoot :: [child2]))
            .init 0).trace
          = (sortByPid (procRoot :: [child2])).map
              (fun p => Ev.recEv 1 p.pid)) :=
  ⟨(C7_tree_order procRoot [child2]).1,
   ⟨by decide, (C7_tree_order procRoot [child2]).2.1 (by decide)⟩,
   ⟨rfl, (C7_tree_order procRoot [child2]).2.2 1 (fun _ => 5) .init 0 rfl⟩⟩

/-- C8: in every `writeprocess` call the wall-clock timestamp is captured
exactly once, after acquiring the oneshot scope and before every field read;
the Timestamp cell renders that same captured instant, the Elapsed cell is
exactly that timestamp minus the numeric `create_time` of the process, and it
is non-negative whenever the process was created no later than the capture. -/
theorem C8_timestamp_and_elapsed :
    sampleEvents.countP isCapture = 1 ∧
    sampleEvents.take 2 = [.acquireScope, .capture] ∧
    (∀ e ∈ sampleEvents.drop 2, isFieldRead e = true) ∧
    ∀ (cyc : Nat) (ts : ℚ) (b : Backing) (fs : List (String × Cell)),
      computeFields cyc ts b = (fs, none) →
      fs.lookup "Timestamp" = some (.timeIso ts) ∧
      ∃ v, resolveCreateTimeQ (some b) = some v ∧
        fs.lookup "Elapsed" = some (.rat (ts - v)) ∧
        (v ≤ ts → 0 ≤ ts - v) := by
  refine ⟨by decide, by decide, by decide, ?_⟩
  intro cyc ts b fs h
  refine ⟨computeFields_lookup_timestamp h, ?_⟩
  obtain ⟨v, hv, hlk⟩ := computeFields_lookup_elapsed h
  exact ⟨v, hv, hlk, fun hle => by linarith⟩

/-- C8 witness: for the healthy minimal process at time 5, the record exists,
its Timestamp cell carries the captured time and its Elapsed cell is
`5 - create_time = 5`. -/
theorem C8_timestamp_witness :
    computeFields 1 5 bGood = ((computeFields 1 5 bGood).1, none) ∧
      ((computeFields 1 5 bGood).1.lookup "Timestamp" = some (.timeIso 5) ∧
        ∃ v, resolveCreateTimeQ (some bGood) = some v ∧
          (computeFields 1 5 bGood).1.lookup "Elapsed" = some (.rat (5 - v)) ∧
          (v ≤ 5 → 0 ≤ (5 : ℚ) - v)) :=
  ⟨rfl, C8_timestamp_and_elapsed.2.2.2 1 5 bGood (computeFields 1 5 bGood).1 rfl⟩

/-- C9: an attribute that is missing, an attribute present as a plain data
member holding `None`, and a callable attribute whose invocation returns
`None` all resolve to the identical "not available" wrapper node — the record
cannot distinguish the three cases. -/
theorem C9_none_indistinguishable (b1 b2 b3 : Backing) (name : String)
    (h1 : b1.attrsOf.lookup name = none)
    (h2 : b2.attrsOf.lookup name = some (.plain .pynone))
    (h3 : b3.attrsOf.lookup name = some (.call (.ok .pynone))) :
    resolveAttr (some b1) name = .ok (.node (.mk none [])) ∧
      resolveAttr (some b2) name = resolveAttr (some b1) name ∧
      resolveAttr (some b3) name = resolveAttr (some b1) name := by
  have e1 : resolveAttr (some b1) name = .ok (.node (.mk none [])) := by
    simp only [resolveAttr, h1]
    rfl
  have e2 : resolveAttr (some b2) name = .ok (.node (.mk none [])) := by
    simp only [resolveAttr, h2]
    rfl
  have e3 : resolveAttr (some b3) name = .ok (.node (.mk none [])) := by
    simp only [resolveAttr, h3]
    rfl
  exact ⟨e1, e2.trans e1.symm, e3.trans e1.symm⟩

/-- C9 witness: concrete backings for the three cases around `num_fds`. -/
theorem C9_none_witness :
    resolveAttr (some bGood) "num_fds" = .ok (.node (.mk none [])) ∧
      resolveAttr (some bPlainNone) "num_fds"
        = resolveAttr (some bGood) "num_fds" ∧
      resolveAttr (some bCallNone) "num_fds"
        = resolveAttr (some bGood) "num_fds" :=
  C9_none_indistinguishable bGood bPlainNone bCallNone "num_fds" rfl rfl rfl

/-- C10: the parsed `-s` option keeps a user-supplied value as a raw string
(only the omitted-option default is the float `0.1`); `time.sleep` on that
string raises `TypeError`, so a run with `-s` supplied commits the records of
cycle 1 and then aborts at the end of the first sampling cycle without ever
waiting, while the default-interval run completes and waits. -/
theorem C10_sleep_string_type_error (s : String) :
    parseSecondsOption none = .float (1 / 10) ∧
    timeSleep (parseSecondsOption (some s)) = .error .typeError ∧
    timeSleep (parseSecondsOption none) = .ok () ∧
    (runMain envOnce (parseSecondsOption (some s)) 3).aborted
      = some .typeError ∧
    (runMain envOnce (parseSecondsOption (some s)) 3).trace
      = [Ev.check true, Ev.startPass 1, Ev.recEv 1 1, Ev.abortedEv .typeError] ∧
    (runMain envOnce (parseSecondsOption none) 3).aborted = none ∧
    (runMain envOnce (parseSecondsOption none) 3).waitedFlag = true :=
  ⟨rfl, rfl, rfl, rfl, rfl, rfl, rfl⟩

end MRP
